import Mathlib

/-!
FallingSand: the bundler configuration `webpack.config.js`

The repository's only source file exports one configuration object.  Its two
non-literal fields are calls of Node's `path.resolve` on `__dirname`, so the
object is embedded as a function of the directory holding the file
(`__dirname`) and of the process's working directory (which `path.resolve`
consults when its arguments yield no absolute path).

JavaScript strings are embedded as `String`, object literals whose values are
all strings as ordered key/value lists, `new C(args...)` as the constructor
together with its argument list.
-/

namespace WebpackConfig

/-! ## Node's `path.resolve` (POSIX flavour) -/

namespace path

/-- Split a character sequence at every `'/'`; the result is never empty and
a sequence with `n` slashes has `n + 1` pieces. -/
def splitOnSlash : List Char → List (List Char)
  | [] => [[]]
  | c :: cs =>
    if c = '/' then [] :: splitOnSlash cs
    else
      match splitOnSlash cs with
      | [] => [[c]]
      | s :: ss => (c :: s) :: ss

/-- Join pieces with a single `'/'` between neighbours. -/
def joinSlash : List (List Char) → List Char
  | [] => []
  | [s] => s
  | s :: t :: ss => s ++ '/' :: joinSlash (t :: ss)

/-- Segment-level reading of Node's `normalizeString(path, allowAboveRoot, '/')`:
empty segments and `.` are dropped, `..` removes the segment before it; at the
top `..` is kept only when `allowAboveRoot`.  `stack` holds the segments kept
so far, innermost first. -/
def normalizeSegments (allowAboveRoot : Bool) : List (List Char) → List (List Char) → List (List Char)
  | stack, [] => stack.reverse
  | stack, s :: rest =>
    if s = [] ∨ s = ['.'] then normalizeSegments allowAboveRoot stack rest
    else if s = ['.', '.'] then
      match stack with
      | [] =>
        if allowAboveRoot then normalizeSegments allowAboveRoot [['.', '.']] rest
        else normalizeSegments allowAboveRoot [] rest
      | t :: stack' =>
        if t = ['.', '.'] then normalizeSegments allowAboveRoot (s :: t :: stack') rest
        else normalizeSegments allowAboveRoot stack' rest
    else normalizeSegments allowAboveRoot (s :: stack) rest

/-- The right-to-left loop of `path.resolve`: `args` is the argument list
already reversed (last argument first), `resolvedPath` the text built so far.
Empty arguments are skipped, each other one is prepended with a `'/'`, and the
loop stops at the first argument that starts with `'/'`; when the arguments
are used up the working directory takes one more turn.  Returns the text and
whether it is absolute. -/
def resolveLoop (cwd : List Char) : List (List Char) → List Char → List Char × Bool
  | [], resolvedPath =>
    if cwd = [] then (resolvedPath, false)
    else (cwd ++ '/' :: resolvedPath, cwd.head? = some '/')
  | p :: ps, resolvedPath =>
    if p = [] then resolveLoop cwd ps resolvedPath
    else if p.head? = some '/' then (p ++ '/' :: resolvedPath, true)
    else resolveLoop cwd ps (p ++ '/' :: resolvedPath)

/-- Character-level `path.resolve(...args)` run with working directory `cwd`. -/
def resolveChars (cwd : List Char) (args : List (List Char)) : List Char :=
  let r := resolveLoop cwd args.reverse []
  let normalized := joinSlash (normalizeSegments (!r.2) [] (splitOnSlash r.1))
  if r.2 then '/' :: normalized
  else if normalized = [] then ['.'] else normalized

/-- Node's `path.resolve(...args)` on POSIX, run with working directory `cwd`
(the value of `process.cwd()`).  The function belongs to the Node runtime, not
to this repository; it is embedded after its documented algorithm: the
arguments are processed from right to left, each prepended until an absolute
path is built, the working directory being used if none is; zero-length
arguments are ignored; the result is normalised and carries no trailing slash
unless it is the root. -/
def resolve (cwd : String) (args : List String) : String :=
  String.mk (resolveChars cwd.data (args.map String.data))

/-- The non-empty segments of a path, outermost first. -/
def segments (p : String) : List (List Char) :=
  (splitOnSlash p.data).filter (fun s => decide (s ≠ []))

/-- An absolute path in normal form: it starts with `'/'` and is either the
root `"/"` itself or continues with segments separated by single slashes, none
of them empty, `.` or `..` (so there is no trailing slash). -/
def isAbsNormalised (d : String) : Bool :=
  match d.data with
  | [] => false
  | c :: rest =>
    decide (c = '/') &&
      (decide (rest = []) ||
        (splitOnSlash rest).all
          (fun s => decide (s ≠ []) && decide (s ≠ ['.']) && decide (s ≠ ['.', '.'])))

/-- Node's `path.isAbsolute` on POSIX: the path starts with `'/'`. -/
def isAbsolute (p : String) : Bool :=
  decide (p.data.head? = some '/')

/-- Path `p` is a proper ancestor directory of path `q`. -/
def isAncestorOf (p q : String) : Bool :=
  decide (segments p <+: segments q) && decide (segments p ≠ segments q)

end path

/-! ## The configuration object -/

/-- The three plugin classes the file obtains with `require`. -/
inductive PluginClass where
  | HtmlWebpackPlugin
  | WasmPackPlugin
  | TerserPlugin
  deriving DecidableEq

/-- The module each plugin class is required from (lines 1, 2 and 4). -/
def PluginClass.requiredFrom : PluginClass → String
  | .HtmlWebpackPlugin => "html-webpack-plugin"
  | .WasmPackPlugin => "@wasm-tool/wasm-pack-plugin"
  | .TerserPlugin => "terser-webpack-plugin"

/-- An options object literal: its keys and string values in source order. -/
abbrev Options := List (String × String)

/-- The value of `new C(args...)`: the class and the arguments passed. -/
structure PluginInstance where
  cls : PluginClass
  args : List Options
  deriving DecidableEq

/-- The value of the `resolve` key. -/
structure ResolveOptions where
  extensions : List String
  deriving DecidableEq

/-- The value of the `output` key. -/
structure OutputOptions where
  path : String
  filename : String
  deriving DecidableEq

/-- The value of the `optimization` key. -/
structure OptimizationOptions where
  minimizer : List PluginInstance
  deriving DecidableEq

/-- The shape of the exported object. -/
structure Configuration where
  entry : String
  resolve : ResolveOptions
  output : OutputOptions
  mode : String
  plugins : List PluginInstance
  optimization : OptimizationOptions
  deriving DecidableEq

/-- The object assigned to `module.exports` (lines 6 to 29), evaluated with
`__dirname = dirname` in a process whose working directory is `cwd`. -/
def moduleExports (cwd dirname : String) : Configuration where
  entry := "./index.js"
  resolve := { extensions := [".ts", ".tsx", ".js", ".wasm"] }
  output := {
    path := path.resolve cwd [dirname, "dist"]
    filename := "index.js" }
  mode := "production"
  plugins := [
    { cls := .HtmlWebpackPlugin
      args := [[("template", "index.html")]] },
    { cls := .WasmPackPlugin
      args := [[("crateDirectory", path.resolve cwd [dirname, "crate"]),
                ("forceMode", "release")]] }]
  optimization := { minimizer := [{ cls := .TerserPlugin, args := [] }] }

/-! ## Readings of the configuration by the tools it is handed to -/

/-- The options object a plugin instance was constructed with, if any. -/
def PluginInstance.options (p : PluginInstance) : Options :=
  p.args.headD []

/-- Look a key up in an options object. -/
def Options.get (o : Options) (key : String) : Option String :=
  (o.find? (fun kv => decide (kv.1 = key))).map Prod.snd

/-- The options object `o` without the entries stored under `key`. -/
def withoutOption (key : String) (o : Options) : Options :=
  o.filter (fun kv => decide (kv.1 ≠ key))

/-- Whether a `WasmPackPlugin` built from options `o` builds a debug artefact
when applied to a compiler whose configuration has mode `mode`.  The plugin is
an npm dependency, not part of this repository; this follows its `apply`
method, `isDebug = forceMode ? forceMode === 'development' : mode ===
'development'`: a present, non-empty `forceMode` decides alone, otherwise the
bundler's mode does. -/
def wasmPackIsDebug (o : Options) (mode : String) : Bool :=
  match Options.get o "forceMode" with
  | some forceMode =>
    if forceMode = "" then decide (mode = "development")
    else decide (forceMode = "development")
  | none => decide (mode = "development")

/-- The profile the plugin has the crate compiled in: a debug build passes
`--dev` to the packager, every other build is a release build. -/
def wasmPackProfile (o : Options) (mode : String) : String :=
  if wasmPackIsDebug o mode then "dev" else "release"

/-- The `WasmPackPlugin` instances among the plugins of a configuration. -/
def wasmPackInstances (c : Configuration) : List PluginInstance :=
  c.plugins.filter (fun p => decide (p.cls = PluginClass.WasmPackPlugin))

/-- Extension probing as the bundler's resolver does it: the extensions are
tried in list order on the extension-less request and the first one naming an
existing file is taken. -/
def resolveExtension (extensions : List String) (fileExists : String → Bool)
    (request : String) : Option String :=
  extensions.find? (fun e => fileExists (request ++ e))

/-- Replace the value stored under `key`, leaving every other entry alone. -/
def setOption (key value : String) (o : Options) : Options :=
  o.map (fun kv => if kv.1 = key then (kv.1, value) else kv)

/-- The configuration `c` with its two directory-dependent values replaced:
`output.path` and the `crateDirectory` option of the `WasmPackPlugin`
instances.  Nothing else is touched. -/
def withPaths (c : Configuration) (outputPath crateDirectory : String) : Configuration :=
  { c with
    output := { c.output with path := outputPath }
    plugins := c.plugins.map (fun p =>
      if p.cls = PluginClass.WasmPackPlugin then
        { p with args := p.args.map (setOption "crateDirectory" crateDirectory) }
      else p) }

end WebpackConfig


/-! ## Lemmas on splitting, joining and normalising -/

namespace WebpackConfig
namespace path

theorem splitOnSlash_ne_nil (s : List Char) : splitOnSlash s ≠ [] := by
  cases s with
  | nil => simp [splitOnSlash]
  | cons c cs =>
    unfold splitOnSlash
    split
    · simp
    · split <;> simp

theorem splitOnSlash_append_slash (a b : List Char) :
    splitOnSlash (a ++ '/' :: b) = splitOnSlash a ++ splitOnSlash b := by
  induction a with
  | nil => simp [splitOnSlash]
  | cons c cs ih =>
    by_cases hc : c = '/'
    · simp [splitOnSlash, hc, ih]
    · cases h : splitOnSlash cs with
      | nil => exact absurd h (splitOnSlash_ne_nil cs)
      | cons s ss => simp [splitOnSlash, hc, ih, h]

theorem joinSlash_splitOnSlash (s : List Char) : joinSlash (splitOnSlash s) = s := by
  induction s with
  | nil => simp [splitOnSlash, joinSlash]
  | cons c cs ih =>
    by_cases hc : c = '/'
    · simp only [splitOnSlash, hc, if_true]
      cases h : splitOnSlash cs with
      | nil => exact absurd h (splitOnSlash_ne_nil cs)
      | cons s ss => rw [h] at ih; simp [joinSlash, ih]
    · simp only [splitOnSlash, hc, if_false]
      cases h : splitOnSlash cs with
      | nil => exact absurd h (splitOnSlash_ne_nil cs)
      | cons s ss =>
        rw [h] at ih
        cases ss with
        | nil => simpa [joinSlash] using ih
        | cons t ts => simp only [joinSlash] at ih ⊢; simp [← ih]

theorem joinSlash_append_singleton (l : List (List Char)) (x : List Char) (hl : l ≠ []) :
    joinSlash (l ++ [x]) = joinSlash l ++ '/' :: x := by
  induction l with
  | nil => exact absurd rfl hl
  | cons s ss ih =>
    cases ss with
    | nil => simp [joinSlash]
    | cons t ts =>
      have := ih (by simp)
      simp only [List.cons_append, joinSlash] at this ⊢
      simp [this]

theorem normalizeSegments_kept (b : Bool) (segs stack rest : List (List Char))
    (h : ∀ s ∈ segs, s ≠ [] ∧ s ≠ ['.'] ∧ s ≠ ['.', '.']) :
    normalizeSegments b stack (segs ++ rest) = normalizeSegments b (segs.reverse ++ stack) rest := by
  induction segs generalizing stack with
  | nil => simp
  | cons s ss ih =>
    obtain ⟨h1, h2, h3⟩ := h s (by simp)
    have hss : ∀ t ∈ ss, t ≠ [] ∧ t ≠ ['.'] ∧ t ≠ ['.', '.'] := fun t ht => h t (by simp [ht])
    rw [List.cons_append, normalizeSegments.eq_def]
    simp only [h1, h2, h3, or_self, if_false]
    rw [ih _ hss]
    simp

theorem resolveLoop_absolute_first (cwd rest x : List Char) (hx : x ≠ [])
    (hrel : x.head? ≠ some '/') :
    resolveLoop cwd [x, '/' :: rest] [] = (('/' :: rest) ++ '/' :: (x ++ ['/']), true) := by
  simp [resolveLoop, hx, hrel]

theorem resolveChars_absolute_first (cwd rest x : List Char) (hx : x ≠ [])
    (hrel : x.head? ≠ some '/') :
    resolveChars cwd ['/' :: rest, x] =
      '/' :: joinSlash
        (normalizeSegments false [] ([] :: (splitOnSlash rest ++ (splitOnSlash x ++ [[]])))) := by
  have hloop := resolveLoop_absolute_first cwd rest x hx hrel
  have hsplit : splitOnSlash (('/' :: rest) ++ '/' :: (x ++ ['/'])) =
      [] :: (splitOnSlash rest ++ (splitOnSlash x ++ [[]])) := by
    rw [splitOnSlash_append_slash, splitOnSlash_append_slash]
    simp [splitOnSlash]
  simp only [resolveChars, List.reverse_cons, List.reverse_nil, List.nil_append,
    List.singleton_append, hloop, hsplit]
  simp

theorem isAbsNormalised_cases (d : String) (h : isAbsNormalised d = true) :
    ∃ rest, d.data = '/' :: rest ∧
      (rest = [] ∨
        (rest ≠ [] ∧ ∀ s ∈ splitOnSlash rest, s ≠ [] ∧ s ≠ ['.'] ∧ s ≠ ['.', '.'])) := by
  unfold isAbsNormalised at h
  cases hd : d.data with
  | nil => simp [hd] at h
  | cons c rest =>
    simp only [hd, Bool.and_eq_true, Bool.or_eq_true, decide_eq_true_eq, List.all_eq_true] at h
    obtain ⟨hc, hrest⟩ := h
    refine ⟨rest, by rw [hc], ?_⟩
    by_cases hr : rest = []
    · exact Or.inl hr
    · refine Or.inr ⟨hr, ?_⟩
      rcases hrest with hrest | hrest
      · exact absurd hrest hr
      · intro s hs
        have := hrest s hs
        simpa [and_assoc] using this

theorem resolveChars_child (cwd rest x : List Char) (xs : List (List Char)) (hx : x ≠ [])
    (hrel : x.head? ≠ some '/')
    (hnorm : ∀ stack, normalizeSegments false stack (splitOnSlash x ++ [[]]) = stack.reverse ++ xs)
    (hrest : rest = [] ∨ ∀ s ∈ splitOnSlash rest, s ≠ [] ∧ s ≠ ['.'] ∧ s ≠ ['.', '.']) :
    resolveChars cwd ['/' :: rest, x] =
      '/' :: joinSlash ((if rest = [] then [] else splitOnSlash rest) ++ xs) := by
  rw [resolveChars_absolute_first cwd rest x hx hrel, normalizeSegments.eq_def]
  simp only [true_or, if_true]
  rcases hrest with hrest | hrest
  · subst hrest
    rw [show splitOnSlash [] = [[]] from rfl, List.singleton_append, normalizeSegments.eq_def]
    simp only [true_or, if_true]
    rw [hnorm]
    simp
  · have hne : rest ≠ [] := by
      intro h0
      subst h0
      exact (hrest [] (by simp [splitOnSlash])).1 rfl
    rw [normalizeSegments_kept false _ [] _ hrest, hnorm]
    simp [hne]

theorem normalize_dist (stack : List (List Char)) :
    normalizeSegments false stack (splitOnSlash "dist".data ++ [[]]) =
      stack.reverse ++ ["dist".data] := by
  simp [splitOnSlash, normalizeSegments]

theorem normalize_crate (stack : List (List Char)) :
    normalizeSegments false stack (splitOnSlash "crate".data ++ [[]]) =
      stack.reverse ++ ["crate".data] := by
  simp [splitOnSlash, normalizeSegments]

theorem normalize_entry (stack : List (List Char)) :
    normalizeSegments false stack (splitOnSlash "./index.js".data ++ [[]]) =
      stack.reverse ++ ["index.js".data] := by
  simp [splitOnSlash, normalizeSegments]

theorem resolve_child (cwd d x y : String) (hd : isAbsNormalised d = true)
    (hx : x.data ≠ []) (hrel : x.data.head? ≠ some '/')
    (hnorm : ∀ stack, normalizeSegments false stack (splitOnSlash x.data ++ [[]]) =
      stack.reverse ++ [y.data]) :
    resolve cwd [d, x] = if d = "/" then "/" ++ y else d ++ "/" ++ y := by
  obtain ⟨rest, hdata, hrest⟩ := isAbsNormalised_cases d hd
  have hchild := resolveChars_child cwd.data rest x.data [y.data] hx hrel hnorm
    (hrest.imp_right (fun h => h.2))
  apply String.ext
  simp only [resolve, List.map_cons, List.map_nil, hdata, hchild]
  by_cases hr : rest = []
  · have hroot : d = "/" := String.ext (by rw [hdata, hr])
    simp [hr, hroot, joinSlash]
  · have hroot : d ≠ "/" := by
      intro h0
      rw [h0] at hdata
      exact hr (by simpa using hdata.symm)
    rw [if_neg hr, if_neg hroot, joinSlash_append_singleton _ _ (splitOnSlash_ne_nil rest),
      joinSlash_splitOnSlash]
    simp [String.data_append, hdata]

theorem segments_child (d y : String) (hy : splitOnSlash y.data = [y.data])
    (hne : y.data ≠ []) :
    segments (if d = "/" then "/" ++ y else d ++ "/" ++ y) = segments d ++ [y.data] := by
  by_cases hroot : d = "/"
  · subst hroot
    have h1 : ("/" ++ y).data = [] ++ '/' :: y.data := by simp [String.data_append]
    rw [if_pos rfl]
    unfold segments
    rw [h1, splitOnSlash_append_slash, hy]
    simp [splitOnSlash, hne]
  · have h1 : (d ++ "/" ++ y).data = d.data ++ '/' :: y.data := by
      simp [String.data_append]
    rw [if_neg hroot]
    unfold segments
    rw [h1, splitOnSlash_append_slash, hy, List.filter_append]
    simp [hne]

theorem resolveLoop_absolute_any (cwd cwd' d x : List Char) (hd : d.head? = some '/') :
    resolveLoop cwd [x, d] [] = resolveLoop cwd' [x, d] [] := by
  have hne : d ≠ [] := by
    intro h0
    simp [h0] at hd
  by_cases hx : x = []
  · simp [resolveLoop, hx, hne, hd]
  · by_cases hrel : x.head? = some '/'
    · simp [resolveLoop, hx, hrel]
    · simp [resolveLoop, hx, hrel, hne, hd]

theorem resolve_absolute_any (cwd cwd' d x : String) (hd : isAbsolute d = true) :
    resolve cwd [d, x] = resolve cwd' [d, x] := by
  have hd' : d.data.head? = some '/' := by simpa [isAbsolute] using hd
  have hloop := resolveLoop_absolute_any cwd.data cwd'.data d.data x.data hd'
  simp only [resolve, resolveChars, List.map_cons, List.map_nil, List.reverse_cons,
    List.reverse_nil, List.nil_append, List.singleton_append, hloop]

theorem isAbsolute_of_isAbsNormalised (d : String) (hd : isAbsNormalised d = true) :
    isAbsolute d = true := by
  obtain ⟨rest, hdata, _⟩ := isAbsNormalised_cases d hd
  simp [isAbsolute, hdata]

end path

/-! ## The claims -/

/-- C1, as stated, fails: with the file in `/srv/app` the classes of the
`plugins` entries are not template plugin, packager, minifier, and no entry of
`plugins` is a `TerserPlugin` at all. -/
theorem plugins_minifier_entry_refuted :
    (moduleExports "/home/u" "/srv/app").plugins.map PluginInstance.cls ≠
        [PluginClass.HtmlWebpackPlugin, PluginClass.WasmPackPlugin, PluginClass.TerserPlugin] ∧
      PluginClass.TerserPlugin ∉
        (moduleExports "/home/u" "/srv/app").plugins.map PluginInstance.cls := by
  decide

/-- C1, amended: for every working directory and config directory the
`plugins` list has exactly two entries, in this order the `HtmlWebpackPlugin`
built from `template: 'index.html'` and the `WasmPackPlugin` built from
`crateDirectory` and `forceMode`; no `TerserPlugin` is among them, the
minifier being listed under `optimization.minimizer` instead. -/
theorem plugins_exact (cwd dirname : String) :
    (moduleExports cwd dirname).plugins =
        [{ cls := PluginClass.HtmlWebpackPlugin, args := [[("template", "index.html")]] },
         { cls := PluginClass.WasmPackPlugin,
           args := [[("crateDirectory", path.resolve cwd [dirname, "crate"]),
                     ("forceMode", "release")]] }] ∧
      (moduleExports cwd dirname).plugins.length = 2 ∧
      PluginClass.TerserPlugin ∉ (moduleExports cwd dirname).plugins.map PluginInstance.cls ∧
      (moduleExports cwd dirname).optimization.minimizer.map PluginInstance.cls =
        [PluginClass.TerserPlugin] := by
  refine ⟨rfl, rfl, ?_, rfl⟩
  simp [moduleExports]

/-- C2, as stated, fails: with the file in `/srv/app` the `WasmPackPlugin`
stripped of its `forceMode` option still compiles in `release` under the
configuration's own mode, so there is no `dev` default for the option to
override. -/
theorem forceMode_override_refuted :
    (wasmPackInstances (moduleExports "/home/u" "/srv/app")).map
        (fun p => wasmPackProfile (withoutOption "forceMode" p.options)
          (moduleExports "/home/u" "/srv/app").mode) ≠ ["dev"] ∧
      (wasmPackInstances (moduleExports "/home/u" "/srv/app")).map
        (fun p => wasmPackProfile (withoutOption "forceMode" p.options)
          (moduleExports "/home/u" "/srv/app").mode) = ["release"] := by
  decide

/-- C2, amended: for every config directory (and working directory) the
configuration holds exactly one `WasmPackPlugin`; it is constructed with one
options object whose keys are exactly `crateDirectory` and `forceMode`, the
former being `path.resolve(__dirname, "crate")` and the latter `'release'`.
With them the plugin compiles in `release` under the configuration's mode and
under every other mode; without `forceMode` it would compile in `release` too
under the configuration's mode `"production"`, and in `dev` only under mode
`"development"`. -/
theorem wasmPack_options (cwd dirname : String) :
    (wasmPackInstances (moduleExports cwd dirname)).map PluginInstance.args =
        [[[("crateDirectory", path.resolve cwd [dirname, "crate"]),
           ("forceMode", "release")]]] ∧
      (wasmPackInstances (moduleExports cwd dirname)).map
          (fun p => p.options.map Prod.fst) = [["crateDirectory", "forceMode"]] ∧
      (wasmPackInstances (moduleExports cwd dirname)).map
          (fun p => Options.get p.options "crateDirectory") =
        [some (path.resolve cwd [dirname, "crate"])] ∧
      (wasmPackInstances (moduleExports cwd dirname)).map
          (fun p => Options.get p.options "forceMode") = [some "release"] ∧
      (wasmPackInstances (moduleExports cwd dirname)).map
          (fun p => wasmPackProfile p.options (moduleExports cwd dirname).mode) =
        ["release"] ∧
      (∀ mode : String, (wasmPackInstances (moduleExports cwd dirname)).map
          (fun p => wasmPackProfile p.options mode) = ["release"]) ∧
      (wasmPackInstances (moduleExports cwd dirname)).map
          (fun p => wasmPackProfile (withoutOption "forceMode" p.options)
            (moduleExports cwd dirname).mode) = ["release"] ∧
      (wasmPackInstances (moduleExports cwd dirname)).map
          (fun p => wasmPackProfile (withoutOption "forceMode" p.options) "development") =
        ["dev"] := by
  refine ⟨?_, ?_, ?_, ?_, ?_, ?_, ?_, ?_⟩
  · simp [wasmPackInstances, moduleExports]
  · simp [wasmPackInstances, moduleExports, PluginInstance.options]
  · simp [wasmPackInstances, moduleExports, PluginInstance.options, Options.get]
  · simp [wasmPackInstances, moduleExports, PluginInstance.options, Options.get]
  · simp [wasmPackInstances, moduleExports, PluginInstance.options, Options.get,
      wasmPackProfile, wasmPackIsDebug]
  · intro mode
    simp [wasmPackInstances, moduleExports, PluginInstance.options, Options.get,
      wasmPackProfile, wasmPackIsDebug]
  · simp [wasmPackInstances, moduleExports, PluginInstance.options, Options.get,
      wasmPackProfile, wasmPackIsDebug, withoutOption]
  · simp [wasmPackInstances, moduleExports, PluginInstance.options, Options.get,
      wasmPackProfile, wasmPackIsDebug, withoutOption]

/-- C3: the extension list is exactly `[".ts", ".tsx", ".js", ".wasm"]`: four
pairwise distinct entries, each starting with a dot, both TypeScript
extensions before `.js`, `.wasm` last.  A resolver probing in list order
therefore takes `.ts` whenever the `.ts` file exists (whatever else exists),
never takes `.wasm` when the `.js` file exists, and takes `.js` when the
`.js` file exists and no TypeScript file does. -/
theorem extensions_order (cwd dirname : String) (fileExists : String → Bool)
    (request : String) :
    (moduleExports cwd dirname).resolve.extensions = [".ts", ".tsx", ".js", ".wasm"] ∧
      (moduleExports cwd dirname).resolve.extensions.length = 4 ∧
      (moduleExports cwd dirname).resolve.extensions.Nodup ∧
      (∀ e ∈ (moduleExports cwd dirname).resolve.extensions, e.data.head? = some '.') ∧
      (moduleExports cwd dirname).resolve.extensions.indexOf ".ts" <
        (moduleExports cwd dirname).resolve.extensions.indexOf ".js" ∧
      (moduleExports cwd dirname).resolve.extensions.indexOf ".tsx" <
        (moduleExports cwd dirname).resolve.extensions.indexOf ".js" ∧
      (moduleExports cwd dirname).resolve.extensions.getLast? = some ".wasm" ∧
      (fileExists (request ++ ".ts") = true →
        resolveExtension (moduleExports cwd dirname).resolve.extensions fileExists request =
          some ".ts") ∧
      (fileExists (request ++ ".js") = true →
        resolveExtension (moduleExports cwd dirname).resolve.extensions fileExists request ≠
          some ".wasm") ∧
      (fileExists (request ++ ".js") = true → fileExists (request ++ ".ts") = false →
        fileExists (request ++ ".tsx") = false →
        resolveExtension (moduleExports cwd dirname).resolve.extensions fileExists request =
          some ".js") := by
  have hexts : (moduleExports cwd dirname).resolve.extensions =
      [".ts", ".tsx", ".js", ".wasm"] := rfl
  rw [hexts]
  refine ⟨rfl, rfl, by decide, by decide, by decide, by decide, rfl, ?_, ?_, ?_⟩
  · intro hts
    simp [resolveExtension, List.find?, hts]
  · intro hjs
    cases hts : fileExists (request ++ ".ts") <;> cases htsx : fileExists (request ++ ".tsx") <;>
      simp [resolveExtension, List.find?, hts, htsx, hjs]
  · intro hjs hts htsx
    simp [resolveExtension, List.find?, hts, htsx, hjs]

/-- C3 applied: with `main.ts`, `main.js` and `main.wasm` all present the
request `main` resolves with extension `.ts`. -/
theorem extensions_order_witness :
    resolveExtension (moduleExports "/home/u" "/srv/app").resolve.extensions
        (fun f => decide (f ∈ ["main.ts", "main.js", "main.wasm"])) "main" = some ".ts" :=
  (extensions_order "/home/u" "/srv/app"
    (fun f => decide (f ∈ ["main.ts", "main.js", "main.wasm"])) "main").2.2.2.2.2.2.2.1
      (by decide)

/-- C5: the minimizer list is exactly one `TerserPlugin` constructed with no
argument, and the mode is the constant `"production"`. -/
theorem minimizer_and_mode (cwd dirname : String) :
    (moduleExports cwd dirname).optimization.minimizer =
        [{ cls := PluginClass.TerserPlugin, args := [] }] ∧
      (moduleExports cwd dirname).optimization.minimizer.length = 1 ∧
      (moduleExports cwd dirname).optimization.minimizer.map PluginInstance.options = [[]] ∧
      PluginClass.TerserPlugin.requiredFrom = "terser-webpack-plugin" ∧
      (moduleExports cwd dirname).mode = "production" :=
  ⟨rfl, rfl, rfl, rfl, rfl⟩

/-- C4, as stated, fails at the root directory: `"/"` is absolute and
normalised, yet with the file there the output directory is `"/dist"`, which
is not `"/" ++ "/dist"`. -/
theorem output_path_concat_refuted :
    path.isAbsNormalised "/" = true ∧
      (moduleExports "/home/u" "/").output.path = "/dist" ∧
      (moduleExports "/home/u" "/").output.path ≠ "/" ++ "/dist" := by
  decide

/-- C4, amended: the entry point is `"./index.js"`, the output filename
`"index.js"` and the output directory `path.resolve(__dirname, "dist")`; for
every absolute, normalised config directory `d` other than the root the
output directory is `d ++ "/dist"`, for the root it is `"/dist"`; in both
cases it is absolute, its segments are those of `d` followed by `dist` (a
direct child of `d`), and it is the same under every working directory. -/
theorem output_location (cwd d : String) (hd : path.isAbsNormalised d = true) :
    (moduleExports cwd d).entry = "./index.js" ∧
      (moduleExports cwd d).output.filename = "index.js" ∧
      (moduleExports cwd d).output.path = path.resolve cwd [d, "dist"] ∧
      (d ≠ "/" → (moduleExports cwd d).output.path = d ++ "/dist") ∧
      (d = "/" → (moduleExports cwd d).output.path = "/dist") ∧
      path.isAbsolute (moduleExports cwd d).output.path = true ∧
      path.segments (moduleExports cwd d).output.path = path.segments d ++ ["dist".data] ∧
      ∀ cwd' : String, (moduleExports cwd' d).output.path = (moduleExports cwd d).output.path := by
  have hres : path.resolve cwd [d, "dist"] = if d = "/" then "/" ++ "dist" else d ++ "/" ++ "dist" :=
    path.resolve_child cwd d "dist" "dist" hd (by decide) (by decide) path.normalize_dist
  have hout : (moduleExports cwd d).output.path = path.resolve cwd [d, "dist"] := rfl
  have habs := path.isAbsolute_of_isAbsNormalised d hd
  refine ⟨rfl, rfl, rfl, ?_, ?_, ?_, ?_, ?_⟩
  · intro hne
    rw [hout, hres, if_neg hne, String.append_assoc]
    rfl
  · intro hroot
    rw [hout, hres, if_pos hroot]
    rfl
  · rw [hout, hres]
    by_cases hroot : d = "/"
    · rw [if_pos hroot]
      decide
    · rw [if_neg hroot]
      have h1 : path.isAbsolute d = true := habs
      simp only [path.isAbsolute, decide_eq_true_eq] at h1 ⊢
      cases hdd : d.data with
      | nil => simp [hdd] at h1
      | cons c cs =>
        rw [hdd] at h1
        simp only [String.data_append, hdd]
        simpa using h1
  · rw [hout, hres]
    exact path.segments_child d "dist" (by decide) (by decide)
  · intro cwd'
    exact path.resolve_absolute_any cwd' cwd d "dist" habs

/-- C4 amended, applied to `/srv/app` with the process started in `/home/u`. -/
theorem output_location_witness :
    path.isAbsNormalised "/srv/app" = true ∧
      (moduleExports "/home/u" "/srv/app").output.path = "/srv/app" ++ "/dist" :=
  ⟨by decide, (output_location "/home/u" "/srv/app" (by decide)).2.2.2.1 (by decide)⟩

/-- C6: the exported object is a function of the config directory alone:
for an absolute config directory (which `__dirname` always is) it is the same
under every working directory, and the objects for any two config directories
are equal once `output.path` and the `crateDirectory` option are replaced, so
they agree on the entry, the extensions, the output filename, the mode, the
template plugin, the `forceMode` option and the optimization setting. -/
theorem exports_static (cwd cwd' d d' : String) (hd : path.isAbsolute d = true) :
    moduleExports cwd d = moduleExports cwd' d ∧
      moduleExports cwd' d' =
        withPaths (moduleExports cwd d) (path.resolve cwd' [d', "dist"])
          (path.resolve cwd' [d', "crate"]) ∧
      (moduleExports cwd' d').entry = (moduleExports cwd d).entry ∧
      (moduleExports cwd' d').resolve = (moduleExports cwd d).resolve ∧
      (moduleExports cwd' d').output.filename = (moduleExports cwd d).output.filename ∧
      (moduleExports cwd' d').mode = (moduleExports cwd d).mode ∧
      (moduleExports cwd' d').optimization = (moduleExports cwd d).optimization ∧
      (moduleExports cwd' d').plugins.map PluginInstance.cls =
        (moduleExports cwd d).plugins.map PluginInstance.cls ∧
      (moduleExports cwd' d').plugins.head? = (moduleExports cwd d).plugins.head? ∧
      (moduleExports cwd' d').plugins.map
          (fun p => p.options.filter (fun kv => decide (kv.1 ≠ "crateDirectory"))) =
        (moduleExports cwd d).plugins.map
          (fun p => p.options.filter (fun kv => decide (kv.1 ≠ "crateDirectory"))) := by
  refine ⟨?_, ?_, rfl, rfl, rfl, rfl, rfl, rfl, rfl, ?_⟩
  · have h1 := path.resolve_absolute_any cwd cwd' d "dist" hd
    have h2 := path.resolve_absolute_any cwd cwd' d "crate" hd
    simp only [moduleExports, h1, h2]
  · simp [moduleExports, withPaths, setOption]
  · simp [moduleExports, PluginInstance.options]

/-- C6 applied: the object for `/srv/app` is the same whether the process runs
in `/home/u` or in `/tmp`. -/
theorem exports_static_witness :
    moduleExports "/home/u" "/srv/app" = moduleExports "/tmp" "/srv/app" :=
  (exports_static "/home/u" "/tmp" "/srv/app" "/opt/other" (by decide)).1

/-- C8: for every absolute, normalised config directory `d` that is also the
bundler's context, the emitted bundle `output.path ++ "/" ++ output.filename`
is not the entry file `path.resolve(d, entry)`, and the output directory is
different from the crate directory `path.resolve(d, "crate")`, neither being
an ancestor of the other. -/
theorem bundle_apart_from_inputs (cwd d : String) (hd : path.isAbsNormalised d = true) :
    (moduleExports cwd d).output.path ++ "/" ++ (moduleExports cwd d).output.filename ≠
        path.resolve cwd [d, (moduleExports cwd d).entry] ∧
      (moduleExports cwd d).output.path ≠ path.resolve cwd [d, "crate"] ∧
      path.isAncestorOf (moduleExports cwd d).output.path (path.resolve cwd [d, "crate"]) =
        false ∧
      path.isAncestorOf (path.resolve cwd [d, "crate"]) (moduleExports cwd d).output.path =
        false ∧
      (wasmPackInstances (moduleExports cwd d)).map
          (fun p => Options.get p.options "crateDirectory") =
        [some (path.resolve cwd [d, "crate"])] := by
  have hdist : path.resolve cwd [d, "dist"] =
      if d = "/" then "/" ++ "dist" else d ++ "/" ++ "dist" :=
    path.resolve_child cwd d "dist" "dist" hd (by decide) (by decide) path.normalize_dist
  have hcrate : path.resolve cwd [d, "crate"] =
      if d = "/" then "/" ++ "crate" else d ++ "/" ++ "crate" :=
    path.resolve_child cwd d "crate" "crate" hd (by decide) (by decide) path.normalize_crate
  have hentry : path.resolve cwd [d, "./index.js"] =
      if d = "/" then "/" ++ "index.js" else d ++ "/" ++ "index.js" :=
    path.resolve_child cwd d "./index.js" "index.js" hd (by decide) (by decide)
      path.normalize_entry
  have hout : (moduleExports cwd d).output.path = path.resolve cwd [d, "dist"] := rfl
  have hsegd : path.segments (path.resolve cwd [d, "dist"]) = path.segments d ++ ["dist".data] := by
    rw [hdist]
    exact path.segments_child d "dist" (by decide) (by decide)
  have hsegc : path.segments (path.resolve cwd [d, "crate"]) =
      path.segments d ++ ["crate".data] := by
    rw [hcrate]
    exact path.segments_child d "crate" (by decide) (by decide)
  have hne : path.segments d ++ ["dist".data] ≠ path.segments d ++ ["crate".data] := by
    intro h
    exact absurd (List.append_cancel_left h) (by decide)
  refine ⟨?_, ?_, ?_, ?_, ?_⟩
  · have hfile : (moduleExports cwd d).output.filename = "index.js" := rfl
    have hent : (moduleExports cwd d).entry = "./index.js" := rfl
    rw [hout, hfile, hent, hdist, hentry]
    intro h
    have hlen := congrArg String.length h
    by_cases hroot : d = "/"
    · simp only [if_pos hroot] at hlen
      exact absurd hlen (by decide)
    · simp only [if_neg hroot, String.length_append] at hlen
      have h1 : "dist".length = 4 := by decide
      have h2 : "index.js".length = 8 := by decide
      have h3 : "/".length = 1 := by decide
      omega
  · rw [hout]
    intro h
    have := congrArg path.segments h
    rw [hsegd, hsegc] at this
    exact hne this
  · rw [hout]
    simp only [path.isAncestorOf, hsegd, hsegc, Bool.and_eq_false_imp, decide_eq_true_eq,
      decide_eq_false_iff_not, not_not]
    intro hpre
    rw [List.prefix_append_right_inj] at hpre
    exact absurd hpre (by decide)
  · rw [hout]
    simp only [path.isAncestorOf, hsegd, hsegc, Bool.and_eq_false_imp, decide_eq_true_eq,
      decide_eq_false_iff_not, not_not]
    intro hpre
    rw [List.prefix_append_right_inj] at hpre
    exact absurd hpre (by decide)
  · simp [wasmPackInstances, moduleExports, PluginInstance.options, Options.get]

/-- C8 applied to `/srv/app`: the bundle `/srv/app/dist/index.js` is not the
entry `/srv/app/index.js`. -/
theorem bundle_apart_from_inputs_witness :
    path.isAbsNormalised "/srv/app" = true ∧
      (moduleExports "/home/u" "/srv/app").output.path ++ "/" ++
          (moduleExports "/home/u" "/srv/app").output.filename ≠
        path.resolve "/home/u" ["/srv/app", (moduleExports "/home/u" "/srv/app").entry] :=
  ⟨by decide, (bundle_apart_from_inputs "/home/u" "/srv/app" (by decide)).1⟩

end WebpackConfig
